import Mathlib

/-!
Verification of the real-time session coordination layer of the telehealth
backend (src/index.js): the Socket.IO handlers for room membership,
initiator assignment, WebRTC signal routing, chat and transcription
persistence, and the connect-time auth middleware.

Conventions of the shallow embedding:
- Socket ids and room ids are strings.
- The `roomParticipants` table (a JS Map from roomId to a Set of socket
  ids) is an association list whose values are duplicate-free lists in
  insertion order; JS Map and Set both preserve insertion order.
- Each handler is a pure function from the current table (and, where
  relevant, a consultation database and a save-success flag standing for
  the Persistence Sink) to the new table plus the list of emissions, an
  emission being a pair of recipient socket id and delivered event.
- `io.to(x).emit` with x a socket id delivers to exactly that socket
  (its private sid room); `io.to(roomId).emit` delivers to every member
  of the room; `socket.to(roomId).emit` delivers to every member except
  the sender. The socket.io room named roomId and the roomParticipants
  entry for roomId hold the same sockets throughout, since join-room,
  leave-room and disconnect update both in lockstep.
-/

/-- Identity decoded from a verified JWT and attached as socket.user. -/
structure Identity where
  userId : String
  role : String
deriving DecidableEq

/-- Entry pushed onto consultation.transcription (timestamp omitted: real time). -/
structure TransEntry where
  senderId : String
  senderRole : String
  text : String
deriving DecidableEq

/-- Entry pushed onto consultation.chatMessages; fields come straight from the
client payload and may be absent. -/
structure ChatEntry where
  senderId : Option String
  senderRole : Option String
  message : Option String
  file : Option String
deriving DecidableEq

/-- Consultation document fields touched by the socket handlers. -/
structure Consultation where
  transcription : List TransEntry
  chatMessages : List ChatEntry
deriving DecidableEq

/-- Events the server can deliver to a socket. -/
inductive SocketEvent where
  | userJoined (userId : String) (isInitiator : Bool)
  | roomReady (roomId : String)
  | userLeft (userId : String)
  | webrtcOffer (offer : String) (sender : String)
  | webrtcAnswer (answer : String) (sender : String)
  | webrtcIce (candidate : String) (sender : String)
  | chatMsg (senderId senderRole message file : Option String)
  | transcriptMsg (entry : TransEntry)
deriving DecidableEq

/-- One delivery: the recipient socket id and the event it receives. -/
abbrev Emission := String × SocketEvent

/-- The roomParticipants table: roomId to the member socket ids in join order. -/
abbrev Rooms := List (String × List String)

/-- Membership read, roomParticipants.get(roomId), a missing entry read as the
empty set. -/
def lookupRoom (rooms : Rooms) (roomId : String) : List String :=
  match rooms.find? (fun p => p.1 == roomId) with
  | some p => p.2
  | none => []

/-- Map.has(roomId). -/
def hasRoom (rooms : Rooms) (roomId : String) : Bool :=
  rooms.any (fun p => p.1 == roomId)

/-- Map.set(roomId, members): overwrites in place at an existing key, else
appends a new entry. -/
def setRoom (rooms : Rooms) (roomId : String) (members : List String) : Rooms :=
  if hasRoom rooms roomId then
    rooms.map (fun p => if p.1 == roomId then (roomId, members) else p)
  else
    rooms ++ [(roomId, members)]

/-- Map.delete(roomId). -/
def delRoom (rooms : Rooms) (roomId : String) : Rooms :=
  rooms.filter (fun p => p.1 != roomId)

/-- Set.add(sid): a JS Set ignores an element already present and otherwise
appends, preserving insertion order. -/
def setAdd (members : List String) (sid : String) : List String :=
  if members.contains sid then members else members ++ [sid]

/-- Set.delete(sid). -/
def setDel (members : List String) (sid : String) : List String :=
  members.filter (fun m => m != sid)

/-- The io.use auth middleware: reads socket.handshake.auth.token; with no
token it calls next() at once; with a token it tries jwt.verify, attaching
the decoded identity on success and merely logging on failure; next() is
reached on every path, so the Bool (connection accepted) is always true. -/
def authMiddleware (token : Option String) (verify : String → Option Identity) :
    Bool × Option Identity :=
  match token with
  | none => (true, none)
  | some t =>
    match verify t with
    | some decoded => (true, some decoded)
    | none => (true, none)

/-- Emissions of one join-room event given the pre-join member list: for each
existing participant e, user-joined to e about the joiner (isInitiator
true) followed by user-joined to the joiner about e (isInitiator false);
a joiner of an empty room gets only room-ready. -/
def joinEms (existing : List String) (sid roomId : String) : List Emission :=
  (existing.map (fun e =>
    [(e, SocketEvent.userJoined sid true), (sid, SocketEvent.userJoined e false)])).flatten
  ++ (if existing.isEmpty then [(sid, SocketEvent.roomReady roomId)] else [])

/-- The join-room handler: reads the existing participants, adds the joiner to
the member set, and emits joinEms of the pre-join member list. -/
def joinRoom (rooms : Rooms) (sid roomId : String) : Rooms × List Emission :=
  let existingParticipants := lookupRoom rooms roomId
  (setRoom rooms roomId (setAdd existingParticipants sid),
   joinEms existingParticipants sid roomId)

/-- The leave-room handler: removes the leaver from the entry when one exists,
garbage-collects an emptied entry, and emits user-left to the socket.io
room (everyone still in the room, the leaver having already left it) -- the
emission happens whether or not the leaver was tracked as a member. -/
def leaveRoom (rooms : Rooms) (sid roomId : String) : Rooms × List Emission :=
  let members := lookupRoom rooms roomId
  let remaining := setDel members sid
  let rooms' :=
    if hasRoom rooms roomId then
      if remaining.isEmpty then delRoom rooms roomId
      else setRoom rooms roomId remaining
    else rooms
  (rooms', remaining.map (fun r => (r, SocketEvent.userLeft sid)))

/-- The webrtc-offer handler: with a to field, io.to(to) unicast tagged with
the sender id; otherwise socket.to(roomId) broadcast to every other member. -/
def webrtcOfferHandler (rooms : Rooms) (sid roomId offer : String)
    (target : Option String) : List Emission :=
  match target with
  | some t => [(t, SocketEvent.webrtcOffer offer sid)]
  | none => (setDel (lookupRoom rooms roomId) sid).map
      (fun m => (m, SocketEvent.webrtcOffer offer sid))

/-- The webrtc-answer handler, same routing as webrtc-offer. -/
def webrtcAnswerHandler (rooms : Rooms) (sid roomId answer : String)
    (target : Option String) : List Emission :=
  match target with
  | some t => [(t, SocketEvent.webrtcAnswer answer sid)]
  | none => (setDel (lookupRoom rooms roomId) sid).map
      (fun m => (m, SocketEvent.webrtcAnswer answer sid))

/-- The webrtc-ice-candidate handler, same routing as webrtc-offer. -/
def webrtcIceHandler (rooms : Rooms) (sid roomId candidate : String)
    (target : Option String) : List Emission :=
  match target with
  | some t => [(t, SocketEvent.webrtcIce candidate sid)]
  | none => (setDel (lookupRoom rooms roomId) sid).map
      (fun m => (m, SocketEvent.webrtcIce candidate sid))

/-- The consultation database the Persistence Sink holds: roomId to document. -/
abbrev Db := List (String × Consultation)

/-- Consultation.findOne on roomId. -/
def findOne (db : Db) (roomId : String) : Option Consultation :=
  (db.find? (fun p => p.1 == roomId)).map (fun p => p.2)

/-- Overwrite of the document stored under roomId. -/
def updateDb (db : Db) (roomId : String) (c : Consultation) : Db :=
  db.map (fun p => if p.1 == roomId then (roomId, c) else p)

/-- JS truthiness of an optional string field: undefined and the empty string
are both falsy. -/
def present (o : Option String) : Bool :=
  match o with
  | some s => s != ""
  | none => false

/-- Whitespace trimming at both ends, the effect of String.prototype.trim,
written over the character list so that it evaluates on concrete input. -/
def trimString (s : String) : String :=
  ⟨((s.data.dropWhile Char.isWhitespace).reverse.dropWhile Char.isWhitespace).reverse⟩

/-- Role normalization in the transcription-update handler. -/
def normalizeRole (senderRole : String) : String :=
  if senderRole == "doctor" || senderRole == "patient" then senderRole else "unknown"

/-- The senderId of a transcription entry: socket.user?.userId falling back to
the socket id when absent or falsy. -/
def entrySender (user : Option Identity) (sid : String) : String :=
  match user with
  | some u => if u.userId == "" then sid else u.userId
  | none => sid

/-- The transcription-update handler. It discards the event (no reply, no
state change) when roomId, text or senderRole is falsy, or when no
consultation document matches roomId; otherwise it normalizes the role,
pushes the entry and saves. Only after a successful save (saveOk, the
Persistence Sink accepting the write; a throwing save is caught after the
push and before the broadcast line) does it broadcast the entry via
io.to(roomId) to every member of the room. -/
def transcriptionUpdate (db : Db) (saveOk : Bool) (rooms : Rooms) (sid : String)
    (user : Option Identity) (roomId text senderRole : Option String) :
    Db × List Emission :=
  if present roomId && present text && present senderRole then
    match roomId, text, senderRole with
    | some rid, some t, some sr =>
      match findOne db rid with
      | none => (db, [])
      | some c =>
        let entry : TransEntry :=
          { senderId := entrySender user sid
            senderRole := normalizeRole sr
            text := trimString t }
        if saveOk then
          (updateDb db rid { c with transcription := c.transcription ++ [entry] },
           (lookupRoom rooms rid).map (fun m => (m, SocketEvent.transcriptMsg entry)))
        else (db, [])
    | _, _, _ => (db, [])
  else (db, [])

/-- The chat-message handler: broadcasts to every member of the room first,
then tries to persist; a missing consultation document or a failing save
is only logged and the already-emitted broadcast stands. -/
def chatMessage (db : Db) (saveOk : Bool) (rooms : Rooms) (roomId : String)
    (senderId senderRole message file : Option String) : Db × List Emission :=
  let ems := (lookupRoom rooms roomId).map
    (fun m => (m, SocketEvent.chatMsg senderId senderRole message file))
  let db' :=
    match findOne db roomId with
    | some c =>
      if saveOk then
        updateDb db roomId
          { c with chatMessages := c.chatMessages ++
              [{ senderId := senderId, senderRole := senderRole,
                 message := message, file := file }] }
      else db
    | none => db
  (db', ems)

/-- The disconnect handler: scans every table entry in order; for each room
holding the socket it deletes the socket, garbage-collects an emptied
entry, and emits user-left to the remaining members (the disconnecting
socket has already left every socket.io room). Rooms not holding the
socket are untouched and emit nothing. -/
def disconnectCleanup (rooms : Rooms) (sid : String) : Rooms × List Emission :=
  match rooms with
  | [] => ([], [])
  | (roomId, members) :: rest =>
    let res := disconnectCleanup rest sid
    if members.contains sid then
      let remaining := setDel members sid
      ((if remaining.isEmpty then res.1 else (roomId, remaining) :: res.1),
       remaining.map (fun r => (r, SocketEvent.userLeft sid)) ++ res.2)
    else ((roomId, members) :: res.1, res.2)

/-- Count of deliveries of one event to one recipient. -/
def countEm (ems : List Emission) (r : String) (ev : SocketEvent) : Nat :=
  ems.countP (fun em => em == (r, ev))

/-- Processing of a whole sequence of join-room events for one room, starting
from an empty table, accumulating emissions in order. -/
def runJoins (roomId : String) (sids : List String) : Rooms × List Emission :=
  sids.foldl (fun acc sid =>
    let res := joinRoom acc.1 sid roomId
    (res.1, acc.2 ++ res.2)) ([], [])

/-- Processing of one join-room event on a member list rather than the whole
table: the table component of joinRoom only changes the entry for the
joined room, so a join sequence for one room is determined by that entry. -/
def runJoinsM (roomId : String) (existing : List String) (sids : List String) :
    List String × List Emission :=
  match sids with
  | [] => (existing, [])
  | sid :: rest =>
    let res := runJoinsM roomId (setAdd existing sid) rest
    (res.1, joinEms existing sid roomId ++ res.2)

/-- Membership-changing socket events, for stating table invariants. -/
inductive SockOp where
  | join (sid roomId : String)
  | leave (sid roomId : String)
  | disconnect (sid : String)

/-- One membership-changing event applied to the table. -/
def stepOp (rooms : Rooms) : SockOp → Rooms × List Emission
  | .join sid roomId => joinRoom rooms sid roomId
  | .leave sid roomId => leaveRoom rooms sid roomId
  | .disconnect sid => disconnectCleanup rooms sid

/-- The table after a whole sequence of membership-changing events, starting
from the empty table the server boots with. -/
def runOps (ops : List SockOp) : Rooms :=
  ops.foldl (fun s op => (stepOp s op).1) []

/-- No entry of the table maps to the empty member set. -/
def nonemptyEntries (rooms : Rooms) : Prop :=
  ∀ p ∈ rooms, p.2 ≠ []

/-- Well-formedness the table enjoys in every reachable state: keys are
distinct (a JS Map) and each member set is duplicate-free (a JS Set). -/
def roomsWF (rooms : Rooms) : Prop :=
  (rooms.map Prod.fst).Nodup ∧ ∀ p ∈ rooms, p.2.Nodup

example : (joinRoom [] "a" "r1").2 = [("a", SocketEvent.roomReady "r1")] := by decide

example : (joinRoom [("r1", ["a"])] "b" "r1").2 =
    [("a", SocketEvent.userJoined "b" true), ("b", SocketEvent.userJoined "a" false)] := by
  decide

/-! Lemmas about the table primitives. -/

lemma lookupRoom_nil (roomId : String) : lookupRoom [] roomId = [] := rfl

lemma lookupRoom_cons (p : String × List String) (rest : Rooms) (roomId : String) :
    lookupRoom (p :: rest) roomId =
      if p.1 == roomId then p.2 else lookupRoom rest roomId := by
  by_cases h : p.1 == roomId <;> simp [lookupRoom, List.find?_cons, h]

lemma hasRoom_cons (p : String × List String) (rest : Rooms) (roomId : String) :
    hasRoom (p :: rest) roomId = ((p.1 == roomId) || hasRoom rest roomId) := by
  simp [hasRoom]

lemma lookupRoom_eq_nil_of_not_has (rooms : Rooms) (roomId : String)
    (h : hasRoom rooms roomId = false) : lookupRoom rooms roomId = [] := by
  induction rooms with
  | nil => rfl
  | cons p rest ih =>
    rw [hasRoom_cons] at h
    simp only [Bool.or_eq_false_iff] at h
    rw [lookupRoom_cons, h.1]
    exact ih h.2

lemma lookupRoom_map_overwrite (rooms : Rooms) (roomId : String) (members : List String)
    (h : hasRoom rooms roomId = true) :
    lookupRoom (rooms.map (fun p => if p.1 == roomId then (roomId, members) else p))
      roomId = members := by
  induction rooms with
  | nil => simp [hasRoom] at h
  | cons p rest ih =>
    rw [List.map_cons]
    by_cases hp : (p.1 == roomId) = true
    · rw [if_pos hp, lookupRoom_cons]
      simp
    · rw [if_neg hp, lookupRoom_cons, if_neg hp]
      apply ih
      rw [hasRoom_cons] at h
      simpa [hp] using h

lemma lookupRoom_append_new (rooms : Rooms) (roomId : String) (members : List String)
    (h : hasRoom rooms roomId = false) :
    lookupRoom (rooms ++ [(roomId, members)]) roomId = members := by
  induction rooms with
  | nil => simp [lookupRoom]
  | cons p rest ih =>
    rw [hasRoom_cons, Bool.or_eq_false_iff] at h
    rw [List.cons_append, lookupRoom_cons, if_neg (by simp [h.1])]
    exact ih h.2

lemma lookupRoom_setRoom (rooms : Rooms) (roomId : String) (members : List String) :
    lookupRoom (setRoom rooms roomId members) roomId = members := by
  unfold setRoom
  by_cases h : hasRoom rooms roomId = true
  · rw [if_pos h]
    exact lookupRoom_map_overwrite rooms roomId members h
  · rw [if_neg h]
    exact lookupRoom_append_new rooms roomId members (by simpa using h)

lemma lookupRoom_delRoom (rooms : Rooms) (roomId : String) :
    lookupRoom (delRoom rooms roomId) roomId = [] := by
  induction rooms with
  | nil => rfl
  | cons p rest ih =>
    unfold delRoom
    rw [List.filter_cons]
    by_cases hp : (p.1 == roomId) = true
    · have hpe : p.1 = roomId := by simpa using hp
      rw [if_neg (by simp [hpe])]
      exact ih
    · rw [if_pos (by simpa using hp), lookupRoom_cons, if_neg hp]
      exact ih

lemma hasRoom_delRoom (rooms : Rooms) (roomId : String) :
    hasRoom (delRoom rooms roomId) roomId = false := by
  simp only [hasRoom, delRoom, List.any_eq_false]
  intro p hp
  rcases List.mem_filter.mp hp with ⟨_, hne⟩
  simpa using hne

/-! Lemmas about delivery counting. -/

lemma countEm_nil (r : String) (ev : SocketEvent) : countEm [] r ev = 0 := rfl

lemma countEm_append (l₁ l₂ : List Emission) (r : String) (ev : SocketEvent) :
    countEm (l₁ ++ l₂) r ev = countEm l₁ r ev + countEm l₂ r ev := by
  simp [countEm, List.countP_append]

lemma countEm_map_pair (l : List String) (ev : SocketEvent) (r : String) :
    countEm (l.map (fun m => (m, ev))) r ev = l.count r := by
  induction l with
  | nil => rfl
  | cons a t ih =>
    simp only [List.map_cons, countEm, List.countP_cons, List.count_cons] at *
    rw [ih]
    by_cases h : a = r <;> simp [h]

lemma count_setDel (members : List String) (sid r : String) (h : members.Nodup) :
    (setDel members sid).count r = if r ∈ members ∧ r ≠ sid then 1 else 0 := by
  by_cases hr : r = sid
  · subst hr
    have hnm : r ∉ setDel members r := by
      intro hm
      rcases List.mem_filter.mp hm with ⟨_, hne⟩
      simp at hne
    simp [List.count_eq_zero_of_not_mem hnm]
  · have hcf : (setDel members sid).count r = members.count r := by
      apply List.count_filter
      simpa using hr
    rw [hcf]
    by_cases hm : r ∈ members
    · simp [List.count_eq_one_of_mem h hm, hm, hr]
    · simp [List.count_eq_zero_of_not_mem hm, hm]

lemma countEm_setDel_map (members : List String) (sid r : String) (ev : SocketEvent)
    (h : members.Nodup) :
    countEm ((setDel members sid).map (fun m => (m, ev))) r ev =
      if r ∈ members ∧ r ≠ sid then 1 else 0 := by
  rw [countEm_map_pair]
  exact count_setDel members sid r h

lemma setDel_eq_self (members : List String) (sid : String) (h : sid ∉ members) :
    setDel members sid = members := by
  apply List.filter_eq_self.mpr
  intro m hm
  simp only [bne_iff_ne, ne_eq]
  intro he
  exact h (he ▸ hm)

lemma setAdd_of_mem (members : List String) (sid : String) (h : sid ∈ members) :
    setAdd members sid = members := by
  simp [setAdd, h]

lemma disconnectCleanup_cons_mem (roomId' : String) (members : List String)
    (rest : Rooms) (sid : String) (hc : sid ∈ members) :
    disconnectCleanup ((roomId', members) :: rest) sid =
      ((if (setDel members sid).isEmpty then (disconnectCleanup rest sid).1
        else (roomId', setDel members sid) :: (disconnectCleanup rest sid).1),
       (setDel members sid).map (fun x => (x, SocketEvent.userLeft sid)) ++
         (disconnectCleanup rest sid).2) := by
  simp only [disconnectCleanup]
  rw [if_pos (by simpa using hc)]

lemma disconnectCleanup_cons_not_mem (roomId' : String) (members : List String)
    (rest : Rooms) (sid : String) (hc : sid ∉ members) :
    disconnectCleanup ((roomId', members) :: rest) sid =
      ((roomId', members) :: (disconnectCleanup rest sid).1,
       (disconnectCleanup rest sid).2) := by
  simp only [disconnectCleanup]
  rw [if_neg (by simpa using hc)]

/-! Claim theorems. -/

/-- C2: a join-room on a room whose member set is empty before the join
produces exactly the single room-ready acknowledgment carrying the roomId
to the joiner: one room-ready delivery and zero user-joined deliveries. -/
theorem claim_C2 (rooms : Rooms) (sid roomId : String)
    (h : lookupRoom rooms roomId = []) :
    (joinRoom rooms sid roomId).2 = [(sid, SocketEvent.roomReady roomId)] ∧
    countEm (joinRoom rooms sid roomId).2 sid (SocketEvent.roomReady roomId) = 1 ∧
    (∀ r u b, countEm (joinRoom rooms sid roomId).2 r (SocketEvent.userJoined u b) = 0) := by
  have he : (joinRoom rooms sid roomId).2 = [(sid, SocketEvent.roomReady roomId)] := by
    simp [joinRoom, joinEms, h]
  refine ⟨he, ?_, ?_⟩
  · rw [he]; simp [countEm, List.countP_cons]
  · intro r u b
    rw [he]; simp [countEm, List.countP_cons]

theorem claim_C2_witness :
    (joinRoom [] "a" "r1").2 = [("a", SocketEvent.roomReady "r1")] :=
  (claim_C2 [] "a" "r1" rfl).1

/-- C8: the connect-time auth middleware is fail-open: the connection is
accepted for every token (missing, malformed or unverifiable included),
no identity is attached without a token or when verification fails, and a
verifying token attaches exactly the decoded identity. -/
theorem claim_C8 (token : Option String) (verify : String → Option Identity) :
    (authMiddleware token verify).1 = true ∧
    (token = none → (authMiddleware token verify).2 = none) ∧
    (∀ t, token = some t → (authMiddleware token verify).2 = verify t) := by
  refine ⟨?_, ?_, ?_⟩
  · cases token with
    | none => rfl
    | some t => cases h : verify t <;> simp [authMiddleware, h]
  · intro h; subst h; rfl
  · intro t h
    subst h
    cases h2 : verify t <;> simp [authMiddleware, h2]

theorem claim_C8_witness :
    (authMiddleware (some "badtoken") (fun _ => none)).1 = true ∧
    (authMiddleware (some "badtoken") (fun _ => none)).2 = none :=
  ⟨(claim_C8 (some "badtoken") (fun _ => none)).1,
   (claim_C8 (some "badtoken") (fun _ => none)).2.2 "badtoken" rfl⟩

/-- C9: a second join-room by a connection already a member leaves the member
set unchanged (JS Set semantics), while the join notifications are
re-emitted, including a user-joined notice delivered to the connection
about itself since it stands among the existing participants. -/
theorem claim_C9 (rooms : Rooms) (sid roomId : String)
    (h : sid ∈ lookupRoom rooms roomId) :
    lookupRoom (joinRoom rooms sid roomId).1 roomId = lookupRoom rooms roomId ∧
    (sid, SocketEvent.userJoined sid true) ∈ (joinRoom rooms sid roomId).2 ∧
    (sid, SocketEvent.userJoined sid false) ∈ (joinRoom rooms sid roomId).2 := by
  refine ⟨?_, ?_, ?_⟩
  · show lookupRoom (setRoom rooms roomId (setAdd (lookupRoom rooms roomId) sid)) roomId = _
    rw [setAdd_of_mem _ _ h, lookupRoom_setRoom]
  · show _ ∈ joinEms (lookupRoom rooms roomId) sid roomId
    unfold joinEms
    apply List.mem_append_left
    exact List.mem_flatten.mpr
      ⟨[(sid, SocketEvent.userJoined sid true), (sid, SocketEvent.userJoined sid false)],
       List.mem_map_of_mem _ h, by simp⟩
  · show _ ∈ joinEms (lookupRoom rooms roomId) sid roomId
    unfold joinEms
    apply List.mem_append_left
    exact List.mem_flatten.mpr
      ⟨[(sid, SocketEvent.userJoined sid true), (sid, SocketEvent.userJoined sid false)],
       List.mem_map_of_mem _ h, by simp⟩

theorem claim_C9_witness :
    lookupRoom (joinRoom [("r1", ["a", "b"])] "a" "r1").1 "r1" =
      lookupRoom [("r1", ["a", "b"])] "r1" :=
  (claim_C9 [("r1", ["a", "b"])] "a" "r1" (by decide)).1

/-- C10: the leave-room handler notifies the socket.io room unconditionally,
so when the leaver was never in the membership entry every current member
still receives a user-left about it; the disconnect handler, by contrast,
emits nothing for a socket contained in no member set. -/
theorem claim_C10 (rooms : Rooms) (sid roomId : String)
    (h : sid ∉ lookupRoom rooms roomId) :
    (leaveRoom rooms sid roomId).2 =
      (lookupRoom rooms roomId).map (fun r => (r, SocketEvent.userLeft sid)) ∧
    ((∀ p ∈ rooms, sid ∉ p.2) → (disconnectCleanup rooms sid).2 = []) := by
  constructor
  · show (setDel (lookupRoom rooms roomId) sid).map _ = _
    rw [setDel_eq_self _ _ h]
  · intro hall
    clear h
    induction rooms with
    | nil => rfl
    | cons p rest ih =>
      obtain ⟨roomId', members⟩ := p
      have hmem : sid ∉ members := hall (roomId', members) (List.mem_cons_self _ rest)
      have ih' := ih (fun q hq => hall q (List.mem_cons_of_mem _ hq))
      simp [disconnectCleanup, hmem, ih']

theorem claim_C10_witness :
    (leaveRoom [("r1", ["a", "b"])] "c" "r1").2 =
      [("a", SocketEvent.userLeft "c"), ("b", SocketEvent.userLeft "c")] :=
  ((claim_C10 [("r1", ["a", "b"])] "c" "r1" (by decide)).1).trans (by decide)

lemma mem_setRoom (rooms : Rooms) (roomId : String) (members : List String)
    (p : String × List String) (h : p ∈ setRoom rooms roomId members) :
    p = (roomId, members) ∨ p ∈ rooms := by
  unfold setRoom at h
  by_cases hh : hasRoom rooms roomId = true
  · rw [if_pos hh] at h
    rcases List.mem_map.mp h with ⟨q, hq, he⟩
    by_cases hq1 : (q.1 == roomId) = true
    · left; rw [← he, if_pos hq1]
    · right; rw [← he, if_neg hq1]; exact hq
  · rw [if_neg hh] at h
    rcases List.mem_append.mp h with h1 | h1
    · right; exact h1
    · left; simpa using h1

lemma setAdd_ne_nil (members : List String) (sid : String) : setAdd members sid ≠ [] := by
  unfold setAdd
  by_cases hc : members.contains sid = true
  · rw [if_pos hc]
    intro he
    rw [he] at hc
    simp at hc
  · rw [if_neg hc]
    simp

lemma join_nonempty (rooms : Rooms) (sid roomId : String) (h : nonemptyEntries rooms) :
    nonemptyEntries (joinRoom rooms sid roomId).1 := by
  intro p hp
  have hp' : p ∈ setRoom rooms roomId (setAdd (lookupRoom rooms roomId) sid) := hp
  rcases mem_setRoom _ _ _ p hp' with h1 | h1
  · rw [h1]; exact setAdd_ne_nil _ sid
  · exact h p h1

lemma leave_nonempty (rooms : Rooms) (sid roomId : String) (h : nonemptyEntries rooms) :
    nonemptyEntries (leaveRoom rooms sid roomId).1 := by
  intro p hp
  have hp' : p ∈ (if hasRoom rooms roomId then
      if (setDel (lookupRoom rooms roomId) sid).isEmpty then delRoom rooms roomId
      else setRoom rooms roomId (setDel (lookupRoom rooms roomId) sid)
    else rooms) := hp
  by_cases hh : hasRoom rooms roomId = true
  · rw [if_pos hh] at hp'
    by_cases he : (setDel (lookupRoom rooms roomId) sid).isEmpty = true
    · rw [if_pos he] at hp'
      have hmem : p ∈ rooms ∧ ¬p.1 = roomId := by simpa [delRoom] using hp'
      exact h p hmem.1
    · rw [if_neg he] at hp'
      rcases mem_setRoom _ _ _ p hp' with h1 | h1
      · rw [h1]; simpa [List.isEmpty_iff] using he
      · exact h p h1
  · rw [if_neg hh] at hp'
    exact h p hp'

lemma disconnect_nonempty (rooms : Rooms) (sid : String) (h : nonemptyEntries rooms) :
    nonemptyEntries (disconnectCleanup rooms sid).1 := by
  induction rooms with
  | nil => intro p hp; simp [disconnectCleanup] at hp
  | cons q rest ih =>
    obtain ⟨roomId', members⟩ := q
    have ihr := ih (fun p hp => h p (List.mem_cons_of_mem _ hp))
    intro p hp
    by_cases hc : sid ∈ members
    · rw [disconnectCleanup_cons_mem roomId' members rest sid hc] at hp
      simp only at hp
      by_cases he : (setDel members sid).isEmpty = true
      · rw [if_pos he] at hp
        exact ihr p hp
      · rw [if_neg he] at hp
        rcases List.mem_cons.mp hp with h1 | h1
        · rw [h1]; simpa [List.isEmpty_iff] using he
        · exact ihr p h1
    · rw [disconnectCleanup_cons_not_mem roomId' members rest sid hc] at hp
      simp only at hp
      rcases List.mem_cons.mp hp with h1 | h1
      · rw [h1]
        exact h _ (List.mem_cons_self _ _)
      · exact ihr p h1

lemma stepOp_nonempty (rooms : Rooms) (op : SockOp) (h : nonemptyEntries rooms) :
    nonemptyEntries (stepOp rooms op).1 := by
  cases op with
  | join sid roomId => exact join_nonempty rooms sid roomId h
  | leave sid roomId => exact leave_nonempty rooms sid roomId h
  | disconnect sid => exact disconnect_nonempty rooms sid h

lemma runOps_nonempty (ops : List SockOp) : nonemptyEntries (runOps ops) := by
  have key : ∀ (l : List SockOp) (s : Rooms), nonemptyEntries s →
      nonemptyEntries (l.foldl (fun s op => (stepOp s op).1) s) := by
    intro l
    induction l with
    | nil => intro s hs; exact hs
    | cons op rest ih => intro s hs; exact ih _ (stepOp_nonempty s op hs)
  exact key ops [] (fun p hp => absurd hp (List.not_mem_nil p))

lemma leave_removes_last (rooms : Rooms) (sid roomId : String)
    (h : lookupRoom rooms roomId = [sid]) :
    hasRoom (leaveRoom rooms sid roomId).1 roomId = false := by
  have hh : hasRoom rooms roomId = true := by
    by_contra hc
    rw [lookupRoom_eq_nil_of_not_has rooms roomId (by simpa using hc)] at h
    simp at h
  have hsd : setDel (lookupRoom rooms roomId) sid = [] := by
    rw [h]; simp [setDel]
  show hasRoom (if hasRoom rooms roomId then
      if (setDel (lookupRoom rooms roomId) sid).isEmpty then delRoom rooms roomId
      else setRoom rooms roomId (setDel (lookupRoom rooms roomId) sid)
    else rooms) roomId = false
  rw [if_pos hh, if_pos (by rw [hsd]; rfl)]
  exact hasRoom_delRoom rooms roomId

lemma hasRoom_disconnect_le (rooms : Rooms) (sid k : String) :
    hasRoom (disconnectCleanup rooms sid).1 k = true → hasRoom rooms k = true := by
  induction rooms with
  | nil => intro h; simpa [disconnectCleanup] using h
  | cons q rest ih =>
    obtain ⟨roomId', members⟩ := q
    intro h
    rw [hasRoom_cons]
    by_cases hc : sid ∈ members
    · rw [disconnectCleanup_cons_mem roomId' members rest sid hc] at h
      simp only at h
      by_cases he : (setDel members sid).isEmpty = true
      · rw [if_pos he] at h
        rw [ih h]; simp
      · rw [if_neg he, hasRoom_cons] at h
        rcases Bool.or_eq_true_iff.mp h with h1 | h1
        · rw [h1]; simp
        · rw [ih h1]; simp
    · rw [disconnectCleanup_cons_not_mem roomId' members rest sid hc] at h
      simp only [hasRoom_cons] at h
      rcases Bool.or_eq_true_iff.mp h with h1 | h1
      · rw [h1]; simp
      · rw [ih h1]; simp

lemma disconnect_removes_last : ∀ (rooms : Rooms) (sid roomId : String),
    (rooms.map Prod.fst).Nodup → lookupRoom rooms roomId = [sid] →
    hasRoom (disconnectCleanup rooms sid).1 roomId = false := by
  intro rooms
  induction rooms with
  | nil => intro sid roomId _ h; simp [lookupRoom] at h
  | cons q rest ih =>
    intro sid roomId hkeys h
    obtain ⟨roomId', members⟩ := q
    rw [lookupRoom_cons] at h
    rw [List.map_cons, List.nodup_cons] at hkeys
    dsimp only at h hkeys
    by_cases hk : (roomId' == roomId) = true
    · rw [if_pos hk] at h
      have hkeq : roomId' = roomId := by simpa using hk
      have hc : sid ∈ members := by rw [h]; simp
      rw [disconnectCleanup_cons_mem roomId' members rest sid hc]
      simp only
      have he : (setDel members sid).isEmpty = true := by
        rw [h]; simp [setDel]
      rw [if_pos he]
      by_contra h2
      rw [Bool.not_eq_false] at h2
      have h3 := hasRoom_disconnect_le rest sid roomId h2
      have h4 : roomId ∈ rest.map Prod.fst := by
        have hex : ∃ x, (roomId, x) ∈ rest := by simpa [hasRoom] using h3
        rcases hex with ⟨x, hx⟩
        exact List.mem_map.mpr ⟨(roomId, x), hx, rfl⟩
      exact hkeys.1 (by rw [hkeq]; exact h4)
    · rw [if_neg hk] at h
      have ihr := ih sid roomId hkeys.2 h
      by_cases hc : sid ∈ members
      · rw [disconnectCleanup_cons_mem roomId' members rest sid hc]
        simp only
        by_cases he : (setDel members sid).isEmpty = true
        · rw [if_pos he]; exact ihr
        · rw [if_neg he, hasRoom_cons]
          simp [hk, ihr]
      · rw [disconnectCleanup_cons_not_mem roomId' members rest sid hc, hasRoom_cons]
        simp [hk, ihr]

/-- C3: the membership table never holds an empty member set: join, leave-room
and disconnect cleanup each preserve the property, every table reachable
by a sequence of such operations from the empty boot state satisfies it,
and the entry for a room disappears the moment its last member departs,
by leave-room or by disconnect. -/
theorem claim_C3 :
    (∀ rooms op, nonemptyEntries rooms → nonemptyEntries (stepOp rooms op).1) ∧
    (∀ ops, nonemptyEntries (runOps ops)) ∧
    (∀ rooms sid roomId, lookupRoom rooms roomId = [sid] →
      hasRoom (leaveRoom rooms sid roomId).1 roomId = false) ∧
    (∀ rooms sid roomId, (rooms.map Prod.fst).Nodup →
      lookupRoom rooms roomId = [sid] →
      hasRoom (disconnectCleanup rooms sid).1 roomId = false) :=
  ⟨fun rooms op h => stepOp_nonempty rooms op h,
   runOps_nonempty,
   fun rooms sid roomId h => leave_removes_last rooms sid roomId h,
   fun rooms sid roomId hk h => disconnect_removes_last rooms sid roomId hk h⟩

theorem claim_C3_witness :
    hasRoom (leaveRoom [("r1", ["a"])] "a" "r1").1 "r1" = false ∧
    hasRoom (disconnectCleanup [("r1", ["a"])] "a").1 "r1" = false :=
  ⟨claim_C3.2.2.1 [("r1", ["a"])] "a" "r1" (by decide),
   claim_C3.2.2.2 [("r1", ["a"])] "a" "r1" (by decide) (by decide)⟩

/-- C4: a webrtc-offer, webrtc-answer or webrtc-ice-candidate with the to
field set is delivered, tagged with the sender id, exactly to the named
target connection; with to omitted it is delivered exactly once to every
other current member of the room and never to the sender. -/
theorem claim_C4 (rooms : Rooms) (sid roomId payload : String)
    (hwf : (lookupRoom rooms roomId).Nodup) :
    (∀ t, webrtcOfferHandler rooms sid roomId payload (some t) =
        [(t, SocketEvent.webrtcOffer payload sid)] ∧
      webrtcAnswerHandler rooms sid roomId payload (some t) =
        [(t, SocketEvent.webrtcAnswer payload sid)] ∧
      webrtcIceHandler rooms sid roomId payload (some t) =
        [(t, SocketEvent.webrtcIce payload sid)]) ∧
    (∀ r,
      countEm (webrtcOfferHandler rooms sid roomId payload none) r
          (SocketEvent.webrtcOffer payload sid) =
        (if r ∈ lookupRoom rooms roomId ∧ r ≠ sid then 1 else 0) ∧
      countEm (webrtcAnswerHandler rooms sid roomId payload none) r
          (SocketEvent.webrtcAnswer payload sid) =
        (if r ∈ lookupRoom rooms roomId ∧ r ≠ sid then 1 else 0) ∧
      countEm (webrtcIceHandler rooms sid roomId payload none) r
          (SocketEvent.webrtcIce payload sid) =
        (if r ∈ lookupRoom rooms roomId ∧ r ≠ sid then 1 else 0)) := by
  refine ⟨fun t => ⟨rfl, rfl, rfl⟩, fun r => ⟨?_, ?_, ?_⟩⟩
  · exact countEm_setDel_map _ sid r _ hwf
  · exact countEm_setDel_map _ sid r _ hwf
  · exact countEm_setDel_map _ sid r _ hwf

lemma not_mem_setDel (members : List String) (sid : String) : sid ∉ setDel members sid := by
  intro hm
  rcases List.mem_filter.mp hm with ⟨_, hne⟩
  simp at hne

lemma lookupRoom_nodup (rooms : Rooms) (roomId : String)
    (hwf : ∀ p ∈ rooms, p.2.Nodup) : (lookupRoom rooms roomId).Nodup := by
  unfold lookupRoom
  cases hf : rooms.find? (fun p => p.1 == roomId) with
  | none => simp
  | some p => exact hwf p (List.mem_of_find?_eq_some hf)

lemma disconnect_not_mem (rooms : Rooms) (sid : String) (rid : String) :
    sid ∉ lookupRoom (disconnectCleanup rooms sid).1 rid := by
  induction rooms with
  | nil => simp [disconnectCleanup, lookupRoom]
  | cons p rest ih =>
    obtain ⟨roomId', members⟩ := p
    by_cases hc : sid ∈ members
    · by_cases he : (setDel members sid).isEmpty
      · have h1 : (disconnectCleanup ((roomId', members) :: rest) sid).1 =
            (disconnectCleanup rest sid).1 := by
          rw [disconnectCleanup_cons_mem roomId' members rest sid hc]
          simp [he]
        rw [h1]; exact ih
      · have h1 : (disconnectCleanup ((roomId', members) :: rest) sid).1 =
            (roomId', setDel members sid) :: (disconnectCleanup rest sid).1 := by
          rw [disconnectCleanup_cons_mem roomId' members rest sid hc]
          simp [he]
        rw [h1, lookupRoom_cons]
        by_cases hk : (roomId' == rid) = true
        · simpa [hk] using not_mem_setDel members sid
        · simpa [hk] using ih
    · rw [disconnectCleanup_cons_not_mem roomId' members rest sid hc, lookupRoom_cons]
      by_cases hk : (roomId' == rid) = true
      · simpa [hk] using hc
      · simpa [hk] using ih

lemma disconnect_userLeft_count (rooms : Rooms) (sid r : String) (hr : r ≠ sid)
    (hwf : ∀ p ∈ rooms, p.2.Nodup) :
    countEm (disconnectCleanup rooms sid).2 r (SocketEvent.userLeft sid) =
      (rooms.filter (fun p => p.2.contains sid && p.2.contains r)).length := by
  induction rooms with
  | nil => rfl
  | cons p rest ih =>
    obtain ⟨roomId', members⟩ := p
    have hmn : members.Nodup := hwf (roomId', members) (List.mem_cons_self _ rest)
    have ih' := ih (fun q hq => hwf q (List.mem_cons_of_mem _ hq))
    by_cases hc : sid ∈ members
    · rw [disconnectCleanup_cons_mem roomId' members rest sid hc]
      simp only
      rw [countEm_append, countEm_map_pair, count_setDel members sid r hmn,
        List.filter_cons, ih']
      by_cases hcr : r ∈ members
      · have hcond : ((roomId', members).2.contains sid &&
            (roomId', members).2.contains r) = true := by simp [hc, hcr]
        rw [if_pos ⟨hcr, hr⟩, if_pos hcond, List.length_cons]
        omega
      · have hcond : ¬(((roomId', members).2.contains sid &&
            (roomId', members).2.contains r) = true) := by simp [hcr]
        rw [if_neg (fun h2 => hcr h2.1), if_neg hcond]
        omega
    · rw [disconnectCleanup_cons_not_mem roomId' members rest sid hc]
      simp only
      have hcond : ¬(((roomId', members).2.contains sid &&
          (roomId', members).2.contains r) = true) := by simp [hc]
      rw [ih', List.filter_cons, if_neg hcond]

/-- C7: after a leave-room the leaver is absent from the member set and
exactly the members at that moment other than the leaver each receive one
user-left carrying its id; after a disconnect the socket is absent from
every member set and every other connection receives one user-left per
room the two shared. -/
theorem claim_C7 (rooms : Rooms) (sid roomId : String)
    (hwf : ∀ p ∈ rooms, p.2.Nodup) :
    sid ∉ lookupRoom (leaveRoom rooms sid roomId).1 roomId ∧
    (∀ r, countEm (leaveRoom rooms sid roomId).2 r (SocketEvent.userLeft sid) =
      if r ∈ lookupRoom rooms roomId ∧ r ≠ sid then 1 else 0) ∧
    (∀ rid, sid ∉ lookupRoom (disconnectCleanup rooms sid).1 rid) ∧
    (∀ r, r ≠ sid →
      countEm (disconnectCleanup rooms sid).2 r (SocketEvent.userLeft sid) =
        (rooms.filter (fun p => p.2.contains sid && p.2.contains r)).length) := by
  refine ⟨?_, ?_, fun rid => disconnect_not_mem rooms sid rid,
    fun r hr => disconnect_userLeft_count rooms sid r hr hwf⟩
  · show sid ∉ lookupRoom
      (if hasRoom rooms roomId then
        if (setDel (lookupRoom rooms roomId) sid).isEmpty then delRoom rooms roomId
        else setRoom rooms roomId (setDel (lookupRoom rooms roomId) sid)
      else rooms) roomId
    by_cases hh : hasRoom rooms roomId
    · rw [if_pos hh]
      by_cases he : (setDel (lookupRoom rooms roomId) sid).isEmpty
      · rw [if_pos he, lookupRoom_delRoom]
        simp
      · rw [if_neg he, lookupRoom_setRoom]
        exact not_mem_setDel _ sid
    · rw [if_neg hh, lookupRoom_eq_nil_of_not_has rooms roomId (by simpa using hh)]
      simp
  · intro r
    show countEm ((setDel (lookupRoom rooms roomId) sid).map
      (fun x => (x, SocketEvent.userLeft sid))) r (SocketEvent.userLeft sid) = _
    exact countEm_setDel_map _ sid r _ (lookupRoom_nodup rooms roomId hwf)

theorem claim_C7_witness :
    countEm (leaveRoom [("r1", ["a", "b", "c"])] "b" "r1").2 "a"
      (SocketEvent.userLeft "b") = 1 :=
  (((claim_C7 [("r1", ["a", "b", "c"])] "b" "r1" (by decide)).2.1) "a").trans (by decide)

theorem claim_C4_witness :
    webrtcOfferHandler [("r1", ["a", "b", "c"])] "a" "r1" "sdp" (some "b") =
      [("b", SocketEvent.webrtcOffer "sdp" "a")] ∧
    countEm (webrtcOfferHandler [("r1", ["a", "b", "c"])] "a" "r1" "sdp" none) "a"
      (SocketEvent.webrtcOffer "sdp" "a") = 0 :=
  ⟨((claim_C4 [("r1", ["a", "b", "c"])] "a" "r1" "sdp" (by decide)).1 "b").1,
   (((claim_C4 [("r1", ["a", "b", "c"])] "a" "r1" "sdp" (by decide)).2 "a").1).trans (by decide)⟩

/-! Claims C5 and C6: the transcription-update and chat-message handlers
against the Persistence Sink. -/

/-- Reduction of the transcription-update handler once all three fields are
supplied, mirroring its body step by step. -/
lemma transcriptionUpdate_some (db : Db) (saveOk : Bool) (rooms : Rooms) (sid : String)
    (user : Option Identity) (rid t sr : String) :
    transcriptionUpdate db saveOk rooms sid user (some rid) (some t) (some sr) =
      if present (some rid) && present (some t) && present (some sr) then
        match findOne db rid with
        | none => (db, [])
        | some c =>
          let entry : TransEntry :=
            { senderId := entrySender user sid
              senderRole := normalizeRole sr
              text := trimString t }
          if saveOk then
            (updateDb db rid { c with transcription := c.transcription ++ [entry] },
             (lookupRoom rooms rid).map (fun m => (m, SocketEvent.transcriptMsg entry)))
          else (db, [])
      else (db, []) := rfl

/-- C5 counterexample: in the transcription-update handler persistence comes
before delivery, so a Persistence Sink failure does prevent the broadcast,
against the claim. With the room holding two members, a missing
consultation record (first case) and a failing save on an existing record
(second case) both produce zero deliveries. -/
theorem claim_C5_counterexample :
    lookupRoom [("r5", ["a5", "b5"])] "r5" = ["a5", "b5"] ∧
    (transcriptionUpdate [] true [("r5", ["a5", "b5"])] "a5" none
      (some "r5") (some "hello") (some "doctor")).2 = [] ∧
    (transcriptionUpdate [("r5", ⟨[], []⟩)] false [("r5", ["a5", "b5"])] "a5" none
      (some "r5") (some "hello") (some "doctor")).2 = [] :=
  ⟨rfl, rfl, rfl⟩

/-- C5 amended: delivery and persistence are decoupled for chat-message only:
its broadcast is the same whatever the Sink state and save outcome, and a
late Sink failure cannot roll it back; for transcription-update a Sink
failure, a missing consultation record or a failing save, suppresses the
broadcast entirely. -/
theorem claim_C5_amended (db db2 : Db) (saveOk saveOk2 : Bool) (rooms : Rooms)
    (roomId : String) (si sr msg fl : Option String) (sid : String)
    (user : Option Identity) (tx srl : Option String) :
    (chatMessage db saveOk rooms roomId si sr msg fl).2 =
      (chatMessage db2 saveOk2 rooms roomId si sr msg fl).2 ∧
    (findOne db roomId = none →
      (transcriptionUpdate db saveOk rooms sid user (some roomId) tx srl).2 = []) ∧
    (transcriptionUpdate db false rooms sid user (some roomId) tx srl).2 = [] := by
  refine ⟨rfl, ?_, ?_⟩
  · intro h
    cases tx with
    | none => simp [transcriptionUpdate, present]
    | some t =>
      cases srl with
      | none => simp [transcriptionUpdate, present]
      | some sr =>
        rw [transcriptionUpdate_some]
        by_cases hc : (present (some roomId) && present (some t) && present (some sr)) = true
        · rw [if_pos hc, h]
        · rw [if_neg hc]
  · cases tx with
    | none => simp [transcriptionUpdate, present]
    | some t =>
      cases srl with
      | none => simp [transcriptionUpdate, present]
      | some sr =>
        rw [transcriptionUpdate_some]
        by_cases hc : (present (some roomId) && present (some t) && present (some sr)) = true
        · rw [if_pos hc]
          cases hf : findOne db roomId with
          | none => rfl
          | some c => rfl
        · rw [if_neg hc]

theorem claim_C5_witness :
    (transcriptionUpdate [("rw5", ⟨[], []⟩)] false [("rw5", ["x5"])] "x5" none
      (some "rw5") (some "hey") (some "doctor")).2 = [] :=
  (claim_C5_amended [("rw5", ⟨[], []⟩)] [] false false [("rw5", ["x5"])] "rw5"
    none none none none "x5" none (some "hey") (some "doctor")).2.2

/-- C6 counterexample: a transcription-update whose three fields are all
present is neither broadcast nor persisted when the Persistence Sink holds
no consultation record for the room, against the claim that a valid event
is broadcast and persisted; the room has two members here. -/
theorem claim_C6_counterexample :
    transcriptionUpdate [] true [("r6", ["a6", "b6"])] "a6" none
      (some "r6") (some "note") (some "patient") = ([], []) ∧
    lookupRoom [("r6", ["a6", "b6"])] "r6" = ["a6", "b6"] :=
  ⟨rfl, rfl⟩

/-- C6 amended: a transcription-update missing roomId, text or senderRole is
discarded with no reply and no state change; otherwise senderRole is
normalized to unknown unless it is exactly doctor or patient and, provided
the Sink holds a consultation record for the room and the save succeeds,
the entry is appended to the record and broadcast to every room member;
when the record is missing or the save fails nothing is broadcast or
persisted. -/
theorem claim_C6_amended (db : Db) (saveOk : Bool) (rooms : Rooms) (sid : String)
    (user : Option Identity) :
    (∀ tx srl rid, rid = none ∨ tx = none ∨ srl = none →
      transcriptionUpdate db saveOk rooms sid user rid tx srl = (db, [])) ∧
    (∀ sr, (sr = "doctor" ∨ sr = "patient") → normalizeRole sr = sr) ∧
    (∀ sr, sr ≠ "doctor" → sr ≠ "patient" → normalizeRole sr = "unknown") ∧
    (∀ rid t sr c, findOne db rid = some c → rid ≠ "" → t ≠ "" → sr ≠ "" →
      transcriptionUpdate db true rooms sid user (some rid) (some t) (some sr) =
        (updateDb db rid { c with transcription := c.transcription ++
            [{ senderId := entrySender user sid, senderRole := normalizeRole sr,
               text := trimString t }] },
         (lookupRoom rooms rid).map (fun m => (m, SocketEvent.transcriptMsg
            { senderId := entrySender user sid, senderRole := normalizeRole sr,
              text := trimString t })))) ∧
    (∀ rid t sr, findOne db rid = none →
      transcriptionUpdate db saveOk rooms sid user (some rid) (some t) (some sr) =
        (db, [])) ∧
    (∀ rid t sr,
      transcriptionUpdate db false rooms sid user (some rid) (some t) (some sr) =
        (db, [])) := by
  refine ⟨?_, ?_, ?_, ?_, ?_, ?_⟩
  · intro tx srl rid h
    rcases h with h | h | h <;> subst h <;>
      simp [transcriptionUpdate, present]
  · intro sr h
    rcases h with h | h <;> subst h <;> rfl
  · intro sr h1 h2
    unfold normalizeRole
    rw [if_neg (by simp [h1, h2])]
  · intro rid t sr c hf hrid ht hsr
    rw [transcriptionUpdate_some, if_pos (by simp [present, hrid, ht, hsr]), hf]
    rfl
  · intro rid t sr hf
    rw [transcriptionUpdate_some]
    by_cases hc : (present (some rid) && present (some t) && present (some sr)) = true
    · rw [if_pos hc, hf]
    · rw [if_neg hc]
  · intro rid t sr
    rw [transcriptionUpdate_some]
    by_cases hc : (present (some rid) && present (some t) && present (some sr)) = true
    · rw [if_pos hc]
      cases hf : findOne db rid with
      | none => rfl
      | some c => rfl
    · rw [if_neg hc]

theorem claim_C6_witness :
    transcriptionUpdate [("rw6", ⟨[], []⟩)] true [("rw6", ["x6", "y6"])] "x6" none
      (some "rw6") (some "hi") (some "nurse") =
      (updateDb [("rw6", ⟨[], []⟩)] "rw6" ⟨[⟨"x6", "unknown", "hi"⟩], []⟩,
       [("x6", SocketEvent.transcriptMsg ⟨"x6", "unknown", "hi"⟩),
        ("y6", SocketEvent.transcriptMsg ⟨"x6", "unknown", "hi"⟩)]) :=
  ((claim_C6_amended [("rw6", ⟨[], []⟩)] true [("rw6", ["x6", "y6"])] "x6"
      none).2.2.2.1 "rw6" "hi" "nurse" ⟨[], []⟩ rfl (by decide) (by decide)
      (by decide)).trans (by decide)

/-! Claim C1: initiator assignment across a join sequence. -/

lemma countEm_pair_block (e sid a b : String) :
    countEm [(e, SocketEvent.userJoined sid true), (sid, SocketEvent.userJoined e false)]
      a (SocketEvent.userJoined b true) = if e = a ∧ sid = b then 1 else 0 := by
  by_cases h1 : e = a
  · by_cases h2 : sid = b
    · subst h1; subst h2
      simp [countEm, List.countP_cons]
    · subst h1
      simp [countEm, List.countP_cons, h2]
  · simp [countEm, List.countP_cons, h1]

lemma countEm_pair_block_false (e sid a b : String) :
    countEm [(e, SocketEvent.userJoined sid true), (sid, SocketEvent.userJoined e false)]
      a (SocketEvent.userJoined b false) = if sid = a ∧ e = b then 1 else 0 := by
  by_cases h1 : sid = a
  · by_cases h2 : e = b
    · subst h1; subst h2
      simp [countEm, List.countP_cons]
    · subst h1
      simp [countEm, List.countP_cons, h2]
  · simp [countEm, List.countP_cons, h1]

lemma countEm_blocks_true (M : List String) (sid a b : String) :
    countEm ((M.map (fun e =>
        [(e, SocketEvent.userJoined sid true),
         (sid, SocketEvent.userJoined e false)])).flatten)
      a (SocketEvent.userJoined b true) = if b = sid then M.count a else 0 := by
  induction M with
  | nil => simp [countEm]
  | cons e M' ih =>
    rw [List.map_cons, List.flatten_cons, countEm_append, ih, countEm_pair_block]
    by_cases hbs : b = sid
    · subst hbs
      rw [List.count_cons]
      by_cases hea : e = a <;> simp [hea] <;> omega
    · rw [if_neg (fun hcon : e = a ∧ sid = b => hbs hcon.2.symm), if_neg hbs, if_neg hbs]

lemma countEm_blocks_false (M : List String) (sid a b : String) :
    countEm ((M.map (fun e =>
        [(e, SocketEvent.userJoined sid true),
         (sid, SocketEvent.userJoined e false)])).flatten)
      a (SocketEvent.userJoined b false) = if a = sid then M.count b else 0 := by
  induction M with
  | nil => simp [countEm]
  | cons e M' ih =>
    rw [List.map_cons, List.flatten_cons, countEm_append, ih, countEm_pair_block_false]
    by_cases has : a = sid
    · subst has
      rw [List.count_cons]
      by_cases heb : e = b <;> simp [heb] <;> omega
    · rw [if_neg (fun hcon : sid = a ∧ e = b => has hcon.1.symm), if_neg has, if_neg has]

lemma countEm_joinEms_true (M : List String) (sid roomId a b : String) :
    countEm (joinEms M sid roomId) a (SocketEvent.userJoined b true) =
      if b = sid then M.count a else 0 := by
  unfold joinEms
  rw [countEm_append, countEm_blocks_true]
  have h0 : countEm (if M.isEmpty then [(sid, SocketEvent.roomReady roomId)] else [])
      a (SocketEvent.userJoined b true) = 0 := by
    by_cases h : M.isEmpty <;> simp [h, countEm, List.countP_cons]
  rw [h0, Nat.add_zero]

lemma countEm_joinEms_false (M : List String) (sid roomId a b : String) :
    countEm (joinEms M sid roomId) a (SocketEvent.userJoined b false) =
      if a = sid then M.count b else 0 := by
  unfold joinEms
  rw [countEm_append, countEm_blocks_false]
  have h0 : countEm (if M.isEmpty then [(sid, SocketEvent.roomReady roomId)] else [])
      a (SocketEvent.userJoined b false) = 0 := by
    by_cases h : M.isEmpty <;> simp [h, countEm, List.countP_cons]
  rw [h0, Nat.add_zero]

lemma setAdd_of_not_mem (members : List String) (sid : String) (h : sid ∉ members) :
    setAdd members sid = members ++ [sid] := by
  unfold setAdd
  rw [if_neg (by simpa using h)]

lemma runJoins_ems (roomId : String) (sids : List String) :
    (runJoins roomId sids).2 = (runJoinsM roomId [] sids).2 := by
  have go : ∀ (l : List String) (rooms : Rooms) (ems0 : List Emission),
      (l.foldl (fun acc sid =>
        let res := joinRoom acc.1 sid roomId
        (res.1, acc.2 ++ res.2)) (rooms, ems0)).2 =
      ems0 ++ (runJoinsM roomId (lookupRoom rooms roomId) l).2 := by
    intro l
    induction l with
    | nil => intro rooms ems0; simp [runJoinsM]
    | cons sid rest ih =>
      intro rooms ems0
      have h1 : ((sid :: rest).foldl (fun acc s =>
          let res := joinRoom acc.1 s roomId
          (res.1, acc.2 ++ res.2)) (rooms, ems0)).2 =
          (rest.foldl (fun acc s =>
            let res := joinRoom acc.1 s roomId
            (res.1, acc.2 ++ res.2))
            ((joinRoom rooms sid roomId).1,
             ems0 ++ joinEms (lookupRoom rooms roomId) sid roomId)).2 := rfl
      rw [h1, ih]
      have hlook : lookupRoom (joinRoom rooms sid roomId).1 roomId =
          setAdd (lookupRoom rooms roomId) sid :=
        lookupRoom_setRoom rooms roomId (setAdd (lookupRoom rooms roomId) sid)
      rw [hlook]
      have hM : (runJoinsM roomId (lookupRoom rooms roomId) (sid :: rest)).2 =
          joinEms (lookupRoom rooms roomId) sid roomId ++
            (runJoinsM roomId (setAdd (lookupRoom rooms roomId) sid) rest).2 := rfl
      rw [hM, List.append_assoc]
  have h := go sids [] []
  simpa [runJoins] using h

lemma runJoinsM_count_true (roomId : String) :
    ∀ (sids M : List String) (a b : String), (M ++ sids).Nodup →
      countEm (runJoinsM roomId M sids).2 a (SocketEvent.userJoined b true) =
        if b ∈ sids ∧ a ∈ M ++ sids.takeWhile (fun x => x != b) then 1 else 0 := by
  intro sids
  induction sids with
  | nil =>
    intro M a b _
    simp [runJoinsM, countEm]
  | cons s rest ih =>
    intro M a b h
    rcases List.nodup_append.mp h with ⟨hM, hsr, hdisj⟩
    have hs_rest : s ∉ rest := (List.nodup_cons.mp hsr).1
    have hsM : s ∉ M := fun hm => hdisj hm (List.mem_cons_self s rest)
    have hAdd : setAdd M s = M ++ [s] := setAdd_of_not_mem M s hsM
    have h' : ((M ++ [s]) ++ rest).Nodup := by
      have hcopy := h
      rw [List.append_cons] at hcopy
      exact hcopy
    have hstep : (runJoinsM roomId M (s :: rest)).2 =
        joinEms M s roomId ++ (runJoinsM roomId (setAdd M s) rest).2 := rfl
    rw [hstep, countEm_append, countEm_joinEms_true, hAdd]
    have IH := ih (M ++ [s]) a b h'
    by_cases hbs : b = s
    · subst hbs
      have h0 : countEm (runJoinsM roomId (M ++ [b]) rest).2 a
          (SocketEvent.userJoined b true) = 0 := by
        rw [IH, if_neg]
        exact fun hcon => hs_rest hcon.1
      rw [h0, if_pos rfl]
      have htw : (b :: rest).takeWhile (fun x => x != b) = [] := by
        rw [List.takeWhile_cons]
        simp
      rw [htw, List.append_nil]
      by_cases haM : a ∈ M
      · rw [List.count_eq_one_of_mem hM haM,
          if_pos ⟨List.mem_cons_self b rest, haM⟩]
      · rw [List.count_eq_zero_of_not_mem haM, if_neg (fun hcon => haM hcon.2)]
    · rw [if_neg hbs]
      have hsb : (s != b) = true := by
        simp only [bne_iff_ne, ne_eq]
        exact fun he => hbs he.symm
      rw [List.takeWhile_cons, if_pos hsb,
        List.append_cons M s (rest.takeWhile (fun x => x != b))]
      have hiff : (b ∈ s :: rest ∧
            a ∈ M ++ [s] ++ rest.takeWhile (fun x => x != b)) ↔
          (b ∈ rest ∧ a ∈ M ++ [s] ++ rest.takeWhile (fun x => x != b)) := by
        constructor
        · rintro ⟨h1, h2⟩
          rcases List.mem_cons.mp h1 with h3 | h3
          · exact absurd h3 hbs
          · exact ⟨h3, h2⟩
        · rintro ⟨h1, h2⟩
          exact ⟨List.mem_cons_of_mem s h1, h2⟩
      rw [if_congr hiff rfl rfl, ← IH, Nat.zero_add]

lemma runJoinsM_count_false (roomId : String) :
    ∀ (sids M : List String) (a b : String), (M ++ sids).Nodup →
      countEm (runJoinsM roomId M sids).2 a (SocketEvent.userJoined b false) =
        if a ∈ sids ∧ b ∈ M ++ sids.takeWhile (fun x => x != a) then 1 else 0 := by
  intro sids
  induction sids with
  | nil =>
    intro M a b _
    simp [runJoinsM, countEm]
  | cons s rest ih =>
    intro M a b h
    rcases List.nodup_append.mp h with ⟨hM, hsr, hdisj⟩
    have hs_rest : s ∉ rest := (List.nodup_cons.mp hsr).1
    have hsM : s ∉ M := fun hm => hdisj hm (List.mem_cons_self s rest)
    have hAdd : setAdd M s = M ++ [s] := setAdd_of_not_mem M s hsM
    have h' : ((M ++ [s]) ++ rest).Nodup := by
      have hcopy := h
      rw [List.append_cons] at hcopy
      exact hcopy
    have hstep : (runJoinsM roomId M (s :: rest)).2 =
        joinEms M s roomId ++ (runJoinsM roomId (setAdd M s) rest).2 := rfl
    rw [hstep, countEm_append, countEm_joinEms_false, hAdd]
    have IH := ih (M ++ [s]) a b h'
    by_cases has : a = s
    · subst has
      have h0 : countEm (runJoinsM roomId (M ++ [a]) rest).2 a
          (SocketEvent.userJoined b false) = 0 := by
        rw [IH, if_neg]
        exact fun hcon => hs_rest hcon.1
      rw [h0, if_pos rfl]
      have htw : (a :: rest).takeWhile (fun x => x != a) = [] := by
        rw [List.takeWhile_cons]
        simp
      rw [htw, List.append_nil]
      by_cases hbM : b ∈ M
      · rw [List.count_eq_one_of_mem hM hbM,
          if_pos ⟨List.mem_cons_self a rest, hbM⟩]
      · rw [List.count_eq_zero_of_not_mem hbM, if_neg (fun hcon => hbM hcon.2)]
    · rw [if_neg has]
      have hsa : (s != a) = true := by
        simp only [bne_iff_ne, ne_eq]
        exact fun he => has he.symm
      rw [List.takeWhile_cons, if_pos hsa,
        List.append_cons M s (rest.takeWhile (fun x => x != a))]
      have hiff : (a ∈ s :: rest ∧
            b ∈ M ++ [s] ++ rest.takeWhile (fun x => x != a)) ↔
          (a ∈ rest ∧ b ∈ M ++ [s] ++ rest.takeWhile (fun x => x != a)) := by
        constructor
        · rintro ⟨h1, h2⟩
          rcases List.mem_cons.mp h1 with h3 | h3
          · exact absurd h3 has
          · exact ⟨h3, h2⟩
        · rintro ⟨h1, h2⟩
          exact ⟨List.mem_cons_of_mem s h1, h2⟩
      rw [if_congr hiff rfl rfl, ← IH, Nat.zero_add]

lemma takeWhile_of_pairwise_ne (l : List String) : ∀ (j : Nat) (hj : j < l.length),
    (∀ k (hk : k < j), l.get ⟨k, Nat.lt_trans hk hj⟩ ≠ l.get ⟨j, hj⟩) →
    l.takeWhile (fun x => x != l.get ⟨j, hj⟩) = l.take j := by
  induction l with
  | nil => intro j hj; simp at hj
  | cons c t ih =>
    intro j hj hne
    cases j with
    | zero =>
      rw [List.takeWhile_cons]
      simp
    | succ m =>
      have hc : c ≠ (c :: t).get ⟨m + 1, hj⟩ := hne 0 (Nat.succ_pos m)
      rw [List.takeWhile_cons, if_pos (by simpa using hc), List.take_succ_cons]
      have hj' : m < t.length := Nat.lt_of_succ_lt_succ hj
      have hrec := ih m hj' (fun k hk => by
        have h2 := hne (k + 1) (Nat.succ_lt_succ hk)
        simpa using h2)
      rw [List.get_cons_succ]
      rw [hrec]

lemma get_mem_take (l : List String) (i j : Nat) (hij : i < j) (hi : i < l.length) :
    l.get ⟨i, hi⟩ ∈ l.take j := by
  have hlen : i < (l.take j).length := by
    rw [List.length_take]
    exact Nat.lt_min.mpr ⟨hij, hi⟩
  have he : (l.take j).get ⟨i, hlen⟩ = l.get ⟨i, hi⟩ := by
    rw [List.get_eq_getElem, List.get_eq_getElem]
    exact List.getElem_take l
  rw [← he]
  exact List.get_mem _ _ _

lemma get_not_mem_take (l : List String) (hnd : l.Nodup) (i j : Nat) (hij : i < j)
    (hj : j < l.length) : l.get ⟨j, hj⟩ ∉ l.take i := by
  intro hmem
  rcases List.mem_iff_get.mp hmem with ⟨⟨k, hk⟩, hke⟩
  have hki : k < i := (Nat.lt_min.mp (by simpa [List.length_take] using hk)).1
  have hkl : k < l.length := by omega
  have he : (l.take i).get ⟨k, hk⟩ = l.get ⟨k, hkl⟩ := by
    rw [List.get_eq_getElem, List.get_eq_getElem]
    exact List.getElem_take l
  rw [he] at hke
  have hfin := List.nodup_iff_injective_get.mp hnd hke
  have : k = j := congrArg Fin.val hfin
  omega

/-- C1: on every join, each existing member e is told that the newcomer joined
with isInitiator true while the newcomer is told about e with isInitiator
false; consequently, over any sequence of joins of distinct connections to
one room starting from the empty table, every ordered pair with i before j
yields exactly one initiator designation, held by the earlier joiner i
toward j (and j is told about i as non-initiator exactly once), and no
designation or non-initiator notice runs the other way. -/
theorem claim_C1 (roomId : String) (sids : List String) (hnd : sids.Nodup)
    (i j : Nat) (hi : i < sids.length) (hj : j < sids.length) (hij : i < j) :
    (∀ (rooms : Rooms) (newSid e : String), e ∈ lookupRoom rooms roomId →
      (e, SocketEvent.userJoined newSid true) ∈ (joinRoom rooms newSid roomId).2 ∧
      (newSid, SocketEvent.userJoined e false) ∈ (joinRoom rooms newSid roomId).2) ∧
    countEm (runJoins roomId sids).2 (sids.get ⟨i, hi⟩)
        (SocketEvent.userJoined (sids.get ⟨j, hj⟩) true) = 1 ∧
    countEm (runJoins roomId sids).2 (sids.get ⟨j, hj⟩)
        (SocketEvent.userJoined (sids.get ⟨i, hi⟩) true) = 0 ∧
    countEm (runJoins roomId sids).2 (sids.get ⟨j, hj⟩)
        (SocketEvent.userJoined (sids.get ⟨i, hi⟩) false) = 1 ∧
    countEm (runJoins roomId sids).2 (sids.get ⟨i, hi⟩)
        (SocketEvent.userJoined (sids.get ⟨j, hj⟩) false) = 0 := by
  have hnd0 : (([] : List String) ++ sids).Nodup := by simpa using hnd
  have htwj : sids.takeWhile (fun x => x != sids.get ⟨j, hj⟩) = sids.take j := by
    apply takeWhile_of_pairwise_ne
    intro k hk heq
    have hfin := List.nodup_iff_injective_get.mp hnd heq
    have hkj : k = j := congrArg Fin.val hfin
    omega
  have htwi : sids.takeWhile (fun x => x != sids.get ⟨i, hi⟩) = sids.take i := by
    apply takeWhile_of_pairwise_ne
    intro k hk heq
    have hfin := List.nodup_iff_injective_get.mp hnd heq
    have hki : k = i := congrArg Fin.val hfin
    omega
  refine ⟨?_, ?_, ?_, ?_, ?_⟩
  · intro rooms newSid e he
    constructor
    · show _ ∈ joinEms (lookupRoom rooms roomId) newSid roomId
      unfold joinEms
      apply List.mem_append_left
      exact List.mem_flatten.mpr
        ⟨[(e, SocketEvent.userJoined newSid true),
          (newSid, SocketEvent.userJoined e false)],
         List.mem_map_of_mem _ he, by simp⟩
    · show _ ∈ joinEms (lookupRoom rooms roomId) newSid roomId
      unfold joinEms
      apply List.mem_append_left
      exact List.mem_flatten.mpr
        ⟨[(e, SocketEvent.userJoined newSid true),
          (newSid, SocketEvent.userJoined e false)],
         List.mem_map_of_mem _ he, by simp⟩
  · rw [runJoins_ems, runJoinsM_count_true roomId sids [] _ _ hnd0,
      List.nil_append, htwj]
    exact if_pos ⟨List.get_mem sids j hj, get_mem_take sids i j hij hi⟩
  · rw [runJoins_ems, runJoinsM_count_true roomId sids [] _ _ hnd0,
      List.nil_append, htwi]
    exact if_neg (fun hcon => get_not_mem_take sids hnd i j hij hj hcon.2)
  · rw [runJoins_ems, runJoinsM_count_false roomId sids [] _ _ hnd0,
      List.nil_append, htwj]
    exact if_pos ⟨List.get_mem sids j hj, get_mem_take sids i j hij hi⟩
  · rw [runJoins_ems, runJoinsM_count_false roomId sids [] _ _ hnd0,
      List.nil_append, htwi]
    exact if_neg (fun hcon => get_not_mem_take sids hnd i j hij hj hcon.2)

theorem claim_C1_witness :
    countEm (runJoins "rw1" ["a1", "b1", "c1"]).2 "a1"
      (SocketEvent.userJoined "c1" true) = 1 ∧
    countEm (runJoins "rw1" ["a1", "b1", "c1"]).2 "c1"
      (SocketEvent.userJoined "a1" true) = 0 :=
  ⟨(claim_C1 "rw1" ["a1", "b1", "c1"] (by decide) 0 2 (by decide) (by decide)
      (by decide)).2.1,
   (claim_C1 "rw1" ["a1", "b1", "c1"] (by decide) 0 2 (by decide) (by decide)
      (by decide)).2.2.1⟩
